import Mathlib

/-!
Verification of the csv-watcher conversion pipeline (src/csv-watcher.py).

The Python source is shallowly embedded below.  Pure helpers become Lean
functions; the filesystem effects of the writer become explicit state
passing over an output-file state; fallible steps (exceptions) are
modelled with Except and with explicit injected-failure indices; the
Python standard-library csv and json routines used by the source are
modelled at the level of behaviour the source relies on (a
delimiter/quote-aware record splitter, and json.dumps with its default
separators ", " and ": " and ensure_ascii=False).  All sizes and times
are natural numbers.  Note throughout: the character \x7b is an opening
curly brace and \x7d a closing curly brace.
-/

namespace CsvWatcher

/-! ## File-name helpers (Python pathlib semantics used by the source) -/

/-- Index of the last dot in a character list, if any. -/
def lastDotIdx (cs : List Char) : Option Nat :=
  match cs.reverse.findIdx? (fun c => c = '.') with
  | none => none
  | some k => some (cs.length - 1 - k)

/-- Python pathlib Path.suffix of a file name: the substring from the last
dot, provided that dot is neither the first nor the last character
(CPython: 0 < i < len(name) - 1). -/
def fileSuffix (name : String) : String :=
  match lastDotIdx name.toList with
  | none => ""
  | some i =>
      if 0 < i && i < name.toList.length - 1 then String.mk (name.toList.drop i) else ""

/-- Python pathlib Path.stem analogue on a bare file name: the name minus
its suffix. -/
def fileStem (name : String) : String :=
  match lastDotIdx name.toList with
  | none => name
  | some i =>
      if 0 < i && i < name.toList.length - 1 then String.mk (name.toList.take i) else name

/-- Characters removed by Python str.strip(). -/
def pyWhitespace (c : Char) : Bool :=
  c = ' ' || c = '\t' || c = '\n' || c = '\r' || c = '\x0b' || c = '\x0c'

/-- Python str.strip(): leading and trailing whitespace removed. -/
def pyStrip (s : String) : String :=
  String.mk (((s.toList.dropWhile pyWhitespace).reverse.dropWhile pyWhitespace).reverse)

/-- Python str.startswith on whole strings. -/
def strStartsWith (s p : String) : Bool := p.toList.isPrefixOf s.toList

/-- Python str.endswith on whole strings. -/
def strEndsWith (s suf : String) : Bool := suf.toList.reverse.isPrefixOf s.toList.reverse

/-- ASCII lower-casing of one character, as str.lower() acts on the
extensions handled here. -/
def asciiLower (c : Char) : Char :=
  if 'A' ≤ c && c ≤ 'Z' then Char.ofNat (c.toNat + 32) else c

/-- str.lower() restricted to ASCII case mapping. -/
def strToLower (s : String) : String := String.mk (s.toList.map asciiLower)

/-- Python pathlib Path.with_suffix on a bare file name: stem plus the new
suffix. -/
def withSuffix (name : String) (suf : String) : String :=
  fileStem name ++ suf

/-! ## Filtering (source lines 13-22 and Converter.enqueue, lines 40-42) -/

/-- TEMP_SUFFIXES from the source. -/
def TEMP_SUFFIXES : List String := [".tmp", ".partial", ".part", ".crdownload"]

/-- TEMP_PREFIXES from the source. -/
def TEMP_PREFIXES : List String := [".~", "~$", "."]

/-- CSV_EXTENSIONS from the source. -/
def CSV_EXTENSIONS : List String := [".csv"]

/-- is_probably_temp: the file name starts with one of TEMP_PREFIXES or
ends with one of TEMP_SUFFIXES. -/
def is_probably_temp (name : String) : Bool :=
  TEMP_PREFIXES.any (fun p => strStartsWith name p)
    || TEMP_SUFFIXES.any (fun suf => strEndsWith name suf)

/-- is_csv: the lower-cased suffix is a member of CSV_EXTENSIONS. -/
def is_csv (name : String) : Bool :=
  CSV_EXTENSIONS.contains (strToLower (fileSuffix name))

/-- Converter.enqueue guard: the path is put on the queue unless it is not
a csv, looks temporary, or does not exist (source line 41). -/
def enqueueAccepts (name : String) (pathExists : Bool) : Bool :=
  !(!(is_csv name) || is_probably_temp name || !pathExists)

/-- Effect of Converter.enqueue on the worker queue. -/
def enqueueStep (q : List String) (name : String) (pathExists : Bool) : List String :=
  if enqueueAccepts name pathExists then q ++ [name] else q

/-! ## Debouncer (source lines 26-36)

The timer map _timers is mutated only under _lock, so the possible
interleavings are sequences of atomic trigger and fire operations; the
map is modelled as an association list from path to the scheduled
deadline. -/

/-- Operations on the debouncer's timer map: Debouncer.trigger at a given
time, and the firing of a path's timer (Debouncer._run pops the entry
under the lock before calling the action). -/
inductive DebOp where
  | trigger (now : Nat) (p : String)
  | fire (p : String)

/-- One lock-protected mutation of the timer map.  trigger cancels any
existing timer for the path and installs a new one with deadline
now + delay; a firing timer removes its own entry. -/
def debStep (delay : Nat) (m : List (String × Nat)) : DebOp → List (String × Nat)
  | DebOp.trigger now p => (p, now + delay) :: m.filter (fun e => !(e.1 == p))
  | DebOp.fire p => m.filter (fun e => !(e.1 == p))

/-- Timer map reached from the empty map after a sequence of operations. -/
def debRun (delay : Nat) (ops : List DebOp) : List (String × Nat) :=
  ops.foldl (debStep delay) []

/-- Discrete-time simulation of the debouncer for a single path: given the
pending deadline (if any) and the sorted list of trigger times, return
the times at which the action actually fires.  A pending timer whose
deadline has passed when the next trigger arrives has fired; otherwise
the trigger cancels it.  Every trigger installs a fresh deadline
now + delay (threading.Timer(self.delay, ...)). -/
def debounceSim (delay : Nat) : Option Nat → List Nat → List Nat
  | pend, [] =>
      match pend with
      | some d => [d]
      | none => []
  | pend, t :: ts =>
      match pend with
      | some d =>
          if d ≤ t then d :: debounceSim delay (some (t + delay)) ts
          else debounceSim delay (some (t + delay)) ts
      | none => debounceSim delay (some (t + delay)) ts

/-! ## Stability detection (Converter._wait_stable, source lines 56-68)

The sequence of stat() observations is a function sizes : Nat -> Option Nat
(none meaning FileNotFoundError).  Index 0 is the initial stat before the
loop; the loop performs checks * 2 further observations. -/

/-- Loop body of _wait_stable: last observed size, consecutive-equal
counter, remaining samples.  A missing file fails immediately; an equal
sample increments the counter and succeeds once it reaches checks; a
changed sample resets the counter to zero and updates last. -/
def waitLoop (c : Nat) : Nat → Nat → List (Option Nat) → Bool
  | _, _, [] => false
  | _, _, none :: _ => false
  | last, stable, some size :: rest =>
      if size = last then
        if c ≤ stable + 1 then true else waitLoop c last (stable + 1) rest
      else waitLoop c size 0 rest

/-- Converter._wait_stable: initial stat, then a loop over range(checks*2)
samples. -/
def wait_stable (checks : Nat) (sizes : Nat → Option Nat) : Bool :=
  match sizes 0 with
  | none => false
  | some last =>
      waitLoop checks last 0 ((List.range (checks * 2)).map (fun i => sizes (i + 1)))

/-! ## csv.reader model

The source parses with csv.reader / csv.DictReader over the configured
delimiter and quote character.  The splitter below is the CPython csv
state machine restricted to the dialect features the source configures
(delimiter, quotechar, doubled quotes, non-strict mode): a quote opens a
quoted field only at field start; inside a quoted field a doubled quote
is a literal quote; newlines inside quotes are literal; a completely
blank line yields the empty row, as in Python. -/

/-- Parser mode of the csv splitter. -/
inductive CsvMode where
  | fieldStart
  | inField
  | inQuoted
  | quoteInQuoted
deriving DecidableEq

/-- Row emitted when a line ends: a fully blank line is the empty row. -/
def csvEmitRow (mode : CsvMode) (cur : List Char) (row : List String) : List String :=
  if mode = CsvMode.fieldStart && row.isEmpty && cur.isEmpty then []
  else row ++ [String.mk cur]

/-- Character-level csv splitter. -/
def csvSplit (delim quote : Char) :
    List Char → CsvMode → List Char → List String → List (List String)
  | [], mode, cur, row =>
      if mode = CsvMode.fieldStart && row.isEmpty && cur.isEmpty then []
      else [row ++ [String.mk cur]]
  | '\r' :: '\n' :: cs, mode, cur, row =>
      if mode = CsvMode.inQuoted then
        csvSplit delim quote cs CsvMode.inQuoted (cur ++ ['\r', '\n']) row
      else csvEmitRow mode cur row :: csvSplit delim quote cs CsvMode.fieldStart [] []
  | '\r' :: cs, mode, cur, row =>
      if mode = CsvMode.inQuoted then
        csvSplit delim quote cs CsvMode.inQuoted (cur ++ ['\r']) row
      else csvEmitRow mode cur row :: csvSplit delim quote cs CsvMode.fieldStart [] []
  | '\n' :: cs, mode, cur, row =>
      if mode = CsvMode.inQuoted then
        csvSplit delim quote cs CsvMode.inQuoted (cur ++ ['\n']) row
      else csvEmitRow mode cur row :: csvSplit delim quote cs CsvMode.fieldStart [] []
  | c :: cs, mode, cur, row =>
      match mode with
      | CsvMode.fieldStart =>
          if c = quote then csvSplit delim quote cs CsvMode.inQuoted cur row
          else if c = delim then
            csvSplit delim quote cs CsvMode.fieldStart [] (row ++ [String.mk cur])
          else csvSplit delim quote cs CsvMode.inField (cur ++ [c]) row
      | CsvMode.inField =>
          if c = delim then
            csvSplit delim quote cs CsvMode.fieldStart [] (row ++ [String.mk cur])
          else csvSplit delim quote cs CsvMode.inField (cur ++ [c]) row
      | CsvMode.inQuoted =>
          if c = quote then csvSplit delim quote cs CsvMode.quoteInQuoted cur row
          else csvSplit delim quote cs CsvMode.inQuoted (cur ++ [c]) row
      | CsvMode.quoteInQuoted =>
          if c = quote then csvSplit delim quote cs CsvMode.inQuoted (cur ++ [quote]) row
          else if c = delim then
            csvSplit delim quote cs CsvMode.fieldStart [] (row ++ [String.mk cur])
          else csvSplit delim quote cs CsvMode.inField (cur ++ [c]) row

/-- Rows of a csv document under a delimiter and quote character. -/
def parseCSV (delim quote : Char) (content : String) : List (List String) :=
  csvSplit delim quote content.toList CsvMode.fieldStart [] []

/-! ## json.dumps model (ensure_ascii=False, default separators) -/

/-- Hexadecimal digit. -/
def hexDigit (n : Nat) : String :=
  String.singleton (("0123456789abcdef".toList).getD n '0')

/-- Escaping of one character inside a JSON string, as json.dumps performs
it with ensure_ascii=False. -/
def escapeJsonChar (c : Char) : String :=
  if c = '\"' then "\\\""
  else if c = '\\' then "\\\\"
  else if c = '\n' then "\\n"
  else if c = '\r' then "\\r"
  else if c = '\t' then "\\t"
  else if c = '\x08' then "\\b"
  else if c = '\x0c' then "\\f"
  else if c.toNat < 32 then "\\u00" ++ hexDigit (c.toNat / 16) ++ hexDigit (c.toNat % 16)
  else String.singleton c

/-- JSON string literal for a text value. -/
def jsonQuote (s : String) : String :=
  "\"" ++ String.join (s.toList.map escapeJsonChar) ++ "\""

/-- Values that can appear in a record produced by the source: a text
field, the None padding csv.DictReader uses for missing trailing
columns (restval), or the list of overflow strings DictReader stores
under its restkey. -/
inductive JVal where
  | s (v : String)
  | null
  | strs (vs : List String)
deriving DecidableEq

/-- Record: ordered key-value pairs; the key none is DictReader's restkey
None, which json.dumps renders as the key "null". -/
abbrev Record := List (Option String × JVal)

/-- Rendering of a record key by json.dumps (a None key becomes "null"). -/
def jsonKey (k : Option String) : String :=
  jsonQuote (match k with | some s => s | none => "null")

/-- json.dumps of a value without indent (item separator ", "). -/
def dumpsValFlat : JVal → String
  | JVal.s v => jsonQuote v
  | JVal.null => "null"
  | JVal.strs vs => "[" ++ String.intercalate ", " (vs.map jsonQuote) ++ "]"

/-- json.dumps of a flat record with indent=None: default separators are
", " between members and ": " after each key.  The byte \x7b is the
opening brace and \x7d the closing brace. -/
def dumpsRecordFlat (r : Record) : String :=
  if r.isEmpty then "\x7b\x7d"
  else
    "\x7b"
      ++ String.intercalate ", " (r.map (fun kv => jsonKey kv.1 ++ ": " ++ dumpsValFlat kv.2))
      ++ "\x7d"

/-- A run of n spaces. -/
def spaces (n : Nat) : String := String.mk (List.replicate n ' ')

/-- json.dumps of a value under indent n at nesting depth one. -/
def dumpsValIndent (n : Nat) : JVal → String
  | JVal.s v => jsonQuote v
  | JVal.null => "null"
  | JVal.strs [] => "[]"
  | JVal.strs vs =>
      "[\n" ++ String.intercalate ",\n" (vs.map (fun v => spaces (2 * n) ++ jsonQuote v))
        ++ "\n" ++ spaces n ++ "]"

/-- json.dumps of a record with indent n: members on their own lines, each
indented by n spaces, separator "," plus newline, key separator ": ". -/
def dumpsRecordIndent (n : Nat) (r : Record) : String :=
  if r.isEmpty then "\x7b\x7d"
  else
    "\x7b\n"
      ++ String.intercalate ",\n"
          (r.map (fun kv => spaces n ++ jsonKey kv.1 ++ ": " ++ dumpsValIndent n kv.2))
      ++ "\n\x7d"

/-- json.dumps(row, ensure_ascii=False, indent=self.cfg.indent). -/
def dumpsRecord (ind : Option Nat) (r : Record) : String :=
  match ind with
  | none => dumpsRecordFlat r
  | some n => dumpsRecordIndent n r

/-! ## Row transformer (source lines 105-113) -/

/-- Header validation from line 107: raise when fieldnames is falsy (no
first row, or an empty first row) or any header cell is empty after
stripping. -/
def headerValid (rows : List (List String)) : Bool :=
  match rows with
  | [] => false
  | h :: _ => !h.isEmpty && h.all (fun c => !(pyStrip c == ""))

/-- Python dict assignment on an ordered association list: an existing key
keeps its position and gets the new value, a new key is appended. -/
def dictInsert (r : Record) (k : Option String) (v : JVal) : Record :=
  if r.any (fun kv => kv.1 == k) then
    r.map (fun kv => if kv.1 == k then (k, v) else kv)
  else r ++ [(k, v)]

/-- Python dict built from a sequence of key-value pairs. -/
def dictOfPairs (ps : List (Option String × JVal)) : Record :=
  ps.foldl (fun r kv => dictInsert r kv.1 kv.2) []

/-- csv.DictReader record for one data row: zip of header and row; a
longer row keeps its overflow under the restkey None; a shorter row is
padded with restval None for the absent trailing columns. -/
def dictRecord (fieldnames row : List String) : Record :=
  let base := dictOfPairs ((fieldnames.zip row).map (fun kv => (some kv.1, JVal.s kv.2)))
  if fieldnames.length < row.length then
    dictInsert base none (JVal.strs (row.drop fieldnames.length))
  else if row.length < fieldnames.length then
    (fieldnames.drop row.length).foldl (fun r k => dictInsert r (some k) JVal.null) base
  else base

/-- Positional record from line 112: col{idx+1} keyed values.  The keys
col1, col2, ... are pairwise distinct, so the Python dict comprehension
is exactly this ordered list of pairs. -/
def positionalRecord (row : List String) : Record :=
  row.enum.map (fun iv => (some ("col" ++ Nat.repr (iv.1 + 1)), JVal.s iv.2))

/-- Header-mode records: every data row after the header, with
csv.DictReader skipping completely blank rows. -/
def headerRecords (rows : List (List String)) : List Record :=
  match rows with
  | [] => []
  | h :: rest => (rest.filter (fun r => !r.isEmpty)).map (dictRecord h)

/-- Positional-mode records: every row of the re-read file, including the
first. -/
def positionalRecords (rows : List (List String)) : List Record :=
  rows.map positionalRecord

/-- The transformer: header mode when the first row is a valid header,
otherwise a full positional retry over all rows. -/
def transformRecords (rows : List (List String)) : List Record :=
  if headerValid rows then headerRecords rows else positionalRecords rows

/-! ## JSON writer (Converter._write_json, source lines 115-127) -/

/-- The strings written to the temporary file in line-delimited mode: each
record compact (no indent is passed on line 118) followed by a newline. -/
def jsonlSteps (rows : List Record) : List String :=
  List.flatten (rows.map (fun r => [dumpsRecord none r, "\n"]))

/-- Element writes of array mode after the opening bracket: a comma before
every element except the first. -/
def arrayStepsAux (ind : Option Nat) : Bool → List Record → List String
  | _, [] => []
  | true, r :: rest => dumpsRecord ind r :: arrayStepsAux ind false rest
  | false, r :: rest => "," :: dumpsRecord ind r :: arrayStepsAux ind false rest

/-- The strings written to the temporary file in array mode. -/
def arraySteps (ind : Option Nat) (rows : List Record) : List String :=
  "[" :: (arrayStepsAux ind true rows ++ ["]"])

/-- All write calls _write_json performs, in order. -/
def writeSteps (jsonLines : Bool) (ind : Option Nat) (rows : List Record) : List String :=
  if jsonLines then jsonlSteps rows else arraySteps ind rows

/-- The complete document _write_json produces when no failure occurs. -/
def renderDoc (jsonLines : Bool) (ind : Option Nat) (rows : List Record) : String :=
  String.join (writeSteps jsonLines ind rows)

/-- One execution of _write_json with an optional injected failure: ok
with the full document, or error carrying the partial temporary-file
content written before the failure. -/
def runWriteJson (steps : List String) (failAt : Option Nat) : Except String String :=
  match failAt with
  | none => Except.ok (String.join steps)
  | some k => Except.error (String.join (steps.take k))

/-- Content of the converted document for a given dialect and input
content, ignoring failures (the no-failure output of _convert_file's
transform-and-serialize stage). -/
def convertContent (jsonLines : Bool) (ind : Option Nat) (delim quote : Char)
    (content : String) : String :=
  renderDoc jsonLines ind (transformRecords (parseCSV delim quote content))

/-- Document published when header mode is taken. -/
def headerDoc (jsonLines : Bool) (ind : Option Nat) (delim quote : Char)
    (content : String) : String :=
  renderDoc jsonLines ind (headerRecords (parseCSV delim quote content))

/-- Document published when positional mode is taken. -/
def positionalDoc (jsonLines : Bool) (ind : Option Nat) (delim quote : Char)
    (content : String) : String :=
  renderDoc jsonLines ind (positionalRecords (parseCSV delim quote content))

/-- State of the two output-directory paths a conversion can touch: the
sibling temporary file (out_path plus the extra ".tmp" extension) and
the final resolved output path. -/
structure FsOut where
  tmp : Option String
  final : Option String
deriving DecidableEq

/-- The writing stage of _convert_file (lines 105-114) with injected
failures.  Header mode writes the temporary file; any exception in that
try-block (including one raised inside _write_json itself) falls
through to a full positional rewrite of the temporary file; os.replace
runs only after a complete successful write and atomically publishes
the temporary file at the final path.  When both writes fail, the
exception propagates and the final path is untouched, the abandoned
temporary file keeping its partial content. -/
def convertFileWrite (hv : Bool) (hdrSteps posSteps : List String)
    (fail1 fail2 : Option Nat) (fs : FsOut) : FsOut :=
  if hv then
    match runWriteJson hdrSteps fail1 with
    | Except.ok doc => { tmp := none, final := some doc }
    | Except.error _ =>
        match runWriteJson posSteps fail2 with
        | Except.ok doc => { tmp := none, final := some doc }
        | Except.error part2 => { tmp := some part2, final := fs.final }
  else
    match runWriteJson posSteps fail2 with
    | Except.ok doc => { tmp := none, final := some doc }
    | Except.error part2 => { tmp := some part2, final := fs.final }

/-- Converter._convert_file restricted to one fixed dialect: parse, pick
header or positional mode, serialize with injected failures, publish. -/
def convertFile (jsonLines : Bool) (ind : Option Nat) (delim quote : Char)
    (content : String) (fail1 fail2 : Option Nat) (fs : FsOut) : FsOut :=
  convertFileWrite (headerValid (parseCSV delim quote content))
    (writeSteps jsonLines ind (headerRecords (parseCSV delim quote content)))
    (writeSteps jsonLines ind (positionalRecords (parseCSV delim quote content)))
    fail1 fail2 fs

/-! ## Output naming (Converter._unique_out_path, source lines 69-75) -/

/-- Candidate name probed at index i: stem_i plus the original suffix. -/
def candidateName (base : String) (i : Nat) : String :=
  fileStem base ++ "_" ++ Nat.repr i ++ fileSuffix base

/-- The while-loop of _unique_out_path, probing indices i, i+1, ... with
explicit fuel. -/
def probeFrom (exs : String → Bool) (base : String) : Nat → Nat → Option String
  | _, 0 => none
  | i, fuel + 1 =>
      if !exs (candidateName base i) then some (candidateName base i)
      else probeFrom exs base (i + 1) fuel

/-- Converter._unique_out_path: the base name itself when overwriting is
on or the base is free, otherwise the first free numbered candidate
starting at 1. -/
def uniqueOutPath (overwrite : Bool) (exs : String → Bool) (base : String)
    (fuel : Nat) : Option String :=
  if overwrite || !exs base then some base
  else probeFrom exs base 1 fuel

/-- Default output name (line 79): the input name with its suffix replaced
by .jsonl in line mode and .json in array mode. -/
def outName (jsonLines : Bool) (csvName : String) : String :=
  withSuffix csvName (if jsonLines then ".jsonl" else ".json")

/-! ## Dialect selection (source lines 84-104) -/

/-- Dialect chosen by _convert_file: sniffing is attempted only when no
delimiter override is configured; an explicit override always wins for
its own field; with no override and no sniffed dialect the fallbacks
are the comma and the double quote. -/
def chooseDialect (cfgDelimiter cfgQuotechar : Option Char)
    (sniffResult : Option (Char × Char)) : Char × Char :=
  let dialect : Option (Char × Char) :=
    if cfgDelimiter.isNone then sniffResult else none
  let delimiter :=
    match cfgDelimiter with
    | some d => d
    | none =>
        match dialect with
        | some p => p.1
        | none => ','
  let quotechar :=
    match cfgQuotechar with
    | some q => q
    | none =>
        match dialect with
        | some p => p.2
        | none => '\"'
  (delimiter, quotechar)

/-! ## Worker loop (Converter._worker_main, source lines 45-55) -/

/-- Outcome of one dequeued job: skipped with a warning when the file
never stabilized, a successful write of the resolved output, or a
caught-and-logged failure. -/
inductive Outcome where
  | skippedUnstable
  | wrote (doc : String)
  | failedLogged
deriving DecidableEq

/-- Items on the worker queue: the stop sentinel None, or a path job,
carried here as its stat-size observations together with the result of
attempting its conversion (fallible code modelled as Except). -/
inductive QItem where
  | sentinel
  | job (sizes : Nat → Option Nat) (conv : Except String String)

/-- Body of the worker loop for one job: _wait_stable with window 0.6 and
checks 3; an unstable file is skipped with a warning; an exception from
the conversion is caught and logged. -/
def processJob (sizes : Nat → Option Nat) (conv : Except String String) : Outcome :=
  if wait_stable 3 sizes then
    match conv with
    | Except.ok doc => Outcome.wrote doc
    | Except.error _ => Outcome.failedLogged
  else Outcome.skippedUnstable

/-- The worker loop: processes queued jobs in order, stopping only at the
sentinel; every job produces exactly one outcome and the loop then
continues with the next queued path. -/
def runWorker : List QItem → List Outcome
  | [] => []
  | QItem.sentinel :: _ => []
  | QItem.job s cv :: rest => processJob s cv :: runWorker rest

/-! ## Helper lemmas -/

/-- Stem and suffix reassemble to the original name. -/
theorem fileStem_append_fileSuffix (name : String) :
    fileStem name ++ fileSuffix name = name := by
  unfold fileStem fileSuffix
  cases h : lastDotIdx name.toList with
  | none => simp
  | some i =>
      by_cases hcond : (decide (0 < i) && decide (i < name.toList.length - 1)) = true
      · simp only [hcond, if_true]
        show String.mk (List.take i name.data ++ List.drop i name.data) = name
        rw [List.take_append_drop]
      · simp only [hcond, if_false]
        simp

/-- The first numbered candidate differs from the base name (it is two
characters longer). -/
theorem candidateName_one_ne (base : String) : candidateName base 1 ≠ base := by
  intro h
  have h1 : (candidateName base 1).length = base.length := congrArg String.length h
  have h2 : (fileStem base ++ fileSuffix base).length = base.length :=
    congrArg String.length (fileStem_append_fileSuffix base)
  have h3 : (Nat.repr 1).length = 1 := by decide
  have h4 : ("_" : String).length = 1 := by decide
  rw [candidateName, String.length_append, String.length_append, String.length_append,
    h3, h4] at h1
  rw [String.length_append] at h2
  omega

/-- The probing loop of _unique_out_path returns the first free candidate. -/
theorem probeFrom_eq_of (exs : String → Bool) (base : String) :
    ∀ (fuel s j : Nat), s ≤ j → j < s + fuel →
      exs (candidateName base j) = false →
      (∀ i, s ≤ i → i < j → exs (candidateName base i) = true) →
      probeFrom exs base s fuel = some (candidateName base j)
  | 0, _, _, _, h2, _, _ => by omega
  | fuel + 1, s, j, h1, h2, h3, h4 => by
      by_cases hsj : s = j
      · subst hsj
        simp [probeFrom, h3]
      · have hlt : s < j := by omega
        have hes : exs (candidateName base s) = true := h4 s le_rfl hlt
        simp only [probeFrom, hes, Bool.not_true, Bool.false_eq_true, if_false]
        exact probeFrom_eq_of exs base fuel (s + 1) j (by omega) (by omega) h3
          (fun i hi1 hi2 => h4 i (by omega) hi2)

/-- Unfolding of _wait_stable when the initial stat fails. -/
theorem wait_stable_eq_none {checks : Nat} {sizes : Nat → Option Nat}
    (h : sizes 0 = none) : wait_stable checks sizes = false := by
  unfold wait_stable
  rw [h]

/-- Unfolding of _wait_stable when the initial stat succeeds. -/
theorem wait_stable_eq_some {checks : Nat} {sizes : Nat → Option Nat} {v : Nat}
    (h : sizes 0 = some v) :
    wait_stable checks sizes
      = waitLoop checks v 0 ((List.range (checks * 2)).map (fun i => sizes (i + 1))) := by
  unfold wait_stable
  rw [h]

/-- Characterisation of the _wait_stable loop: starting from reference
value last and counter stable, it succeeds exactly when either the
first c - stable samples all still equal last, or some sample run of
c + 1 equal observed values occurs inside the sample list with the file
present at every earlier sample. -/
theorem waitLoop_true_iff (c : Nat) (hc : 0 < c) :
    ∀ (samples : List (Option Nat)) (last stable : Nat), stable < c →
      (waitLoop c last stable samples = true ↔
        ((∀ i, i < c - stable → samples[i]? = some (some last)) ∨
         ∃ j v, j + c < samples.length ∧
           (∀ i, i < j → ∃ w, samples[i]? = some (some w)) ∧
           (∀ i, j ≤ i → i ≤ j + c → samples[i]? = some (some v)))) := by
  intro samples
  induction samples with
  | nil =>
    intro last stable hs
    constructor
    · intro h
      simp [waitLoop] at h
    · rintro (hA | ⟨j, v, hlen, -, -⟩)
      · have h0 := hA 0 (by omega)
        simp at h0
      · simp at hlen
  | cons head rest ih =>
    intro last stable hs
    cases head with
    | none =>
      constructor
      · intro h
        simp [waitLoop] at h
      · rintro (hA | ⟨j, v, hlen, hdef, hrun⟩)
        · have h0 := hA 0 (by omega)
          simp at h0
        · rcases Nat.eq_zero_or_pos j with rfl | hj
          · have h0 := hrun 0 le_rfl (by omega)
            simp at h0
          · obtain ⟨w, hw⟩ := hdef 0 hj
            simp at hw
    | some s =>
      by_cases hsl : s = last
      · subst hsl
        by_cases hstop : c ≤ stable + 1
        · have hL : waitLoop c s stable (some s :: rest) = true := by
            simp [waitLoop, hstop]
          rw [hL]
          simp only [true_iff]
          left
          intro i hi
          have hcs : c - stable = 1 := by omega
          rw [hcs] at hi
          cases i with
          | zero => simp
          | succ i' => omega
        · have hstep : waitLoop c s stable (some s :: rest)
              = waitLoop c s (stable + 1) rest := by
            simp [waitLoop, hstop]
          rw [hstep, ih s (stable + 1) (by omega)]
          constructor
          · rintro (hA | ⟨j, v, hlen, hdef, hrun⟩)
            · left
              intro i hi
              cases i with
              | zero => simp
              | succ i' =>
                rw [List.getElem?_cons_succ]
                exact hA i' (by omega)
            · right
              refine ⟨j + 1, v, by simp only [List.length_cons]; omega, ?_, ?_⟩
              · intro i hi
                cases i with
                | zero => exact ⟨s, by simp⟩
                | succ i' =>
                  rw [List.getElem?_cons_succ]
                  exact hdef i' (by omega)
              · intro i h1 h2
                cases i with
                | zero => omega
                | succ i' =>
                  rw [List.getElem?_cons_succ]
                  exact hrun i' (by omega) (by omega)
          · rintro (hA | ⟨j, v, hlen, hdef, hrun⟩)
            · left
              intro i hi
              have hh := hA (i + 1) (by omega)
              rwa [List.getElem?_cons_succ] at hh
            · rcases j with _ | j'
              · left
                have h0 := hrun 0 le_rfl (by omega)
                rw [List.getElem?_cons_zero] at h0
                have hvs : v = s := (Option.some.inj (Option.some.inj h0)).symm
                intro i hi
                have hh := hrun (i + 1) (by omega) (by omega)
                rw [List.getElem?_cons_succ] at hh
                rw [hh, hvs]
              · right
                refine ⟨j', v, by simp only [List.length_cons] at hlen; omega, ?_, ?_⟩
                · intro i hi
                  have hh := hdef (i + 1) (by omega)
                  rwa [List.getElem?_cons_succ] at hh
                · intro i h1 h2
                  have hh := hrun (i + 1) (by omega) (by omega)
                  rwa [List.getElem?_cons_succ] at hh
      · have hstep : waitLoop c last stable (some s :: rest) = waitLoop c s 0 rest := by
          simp [waitLoop, hsl]
        rw [hstep, ih s 0 hc]
        constructor
        · rintro (hA | ⟨j, v, hlen, hdef, hrun⟩)
          · right
            have hcl : c - 1 < rest.length := by
              have hh := hA (c - 1) (by omega)
              by_contra hge
              rw [List.getElem?_eq_none (by omega)] at hh
              cases hh
            refine ⟨0, s, by simp only [List.length_cons]; omega,
              fun i hi => absurd hi (by omega), ?_⟩
            intro i h1 h2
            cases i with
            | zero => simp
            | succ i' =>
              rw [List.getElem?_cons_succ]
              exact hA i' (by omega)
          · right
            refine ⟨j + 1, v, by simp only [List.length_cons]; omega, ?_, ?_⟩
            · intro i hi
              cases i with
              | zero => exact ⟨s, by simp⟩
              | succ i' =>
                rw [List.getElem?_cons_succ]
                exact hdef i' (by omega)
            · intro i h1 h2
              cases i with
              | zero => omega
              | succ i' =>
                rw [List.getElem?_cons_succ]
                exact hrun i' (by omega) (by omega)
        · rintro (hA | ⟨j, v, hlen, hdef, hrun⟩)
          · exfalso
            have h0 := hA 0 (by omega)
            rw [List.getElem?_cons_zero] at h0
            exact hsl (Option.some.inj (Option.some.inj h0))
          · rcases j with _ | j'
            · left
              have h0 := hrun 0 le_rfl (by omega)
              rw [List.getElem?_cons_zero] at h0
              have hvs : v = s := (Option.some.inj (Option.some.inj h0)).symm
              intro i hi
              have hh := hrun (i + 1) (by omega) (by omega)
              rw [List.getElem?_cons_succ] at hh
              rw [hh, hvs]
            · right
              refine ⟨j', v, by simp only [List.length_cons] at hlen; omega, ?_, ?_⟩
              · intro i hi
                have hh := hdef (i + 1) (by omega)
                rwa [List.getElem?_cons_succ] at hh
              · intro i h1 h2
                have hh := hrun (i + 1) (by omega) (by omega)
                rwa [List.getElem?_cons_succ] at hh

/-- Characterisation of _wait_stable at the worker's parameters
(checks = 3, hence at most 6 loop samples): it succeeds exactly when,
for some observation index j at most 3, the file was present at every
observation before j and the four consecutive observations j to j + 3
returned one identical size — that is, three consecutive samples with
unchanged size within the attempt budget. -/
theorem wait_stable_three_iff (sizes : Nat → Option Nat) :
    wait_stable 3 sizes = true ↔
      ∃ j v, j ≤ 3 ∧ (∀ i, i < j → ∃ w, sizes i = some w) ∧
        (∀ i, j ≤ i → i ≤ j + 3 → sizes i = some v) := by
  cases h0 : sizes 0 with
  | none =>
    rw [wait_stable_eq_none h0]
    constructor
    · intro h
      cases h
    · rintro ⟨j, v, hj, hdef, hrun⟩
      rcases Nat.eq_zero_or_pos j with rfl | hj0
      · have hh := hrun 0 le_rfl (by omega)
        rw [h0] at hh
        cases hh
      · obtain ⟨w, hw⟩ := hdef 0 hj0
        rw [h0] at hw
        cases hw
  | some v0 =>
    rw [wait_stable_eq_some h0, waitLoop_true_iff 3 (by omega) _ v0 0 (by omega)]
    have hget : ∀ i : Nat, i < 6 →
        ((List.range (3 * 2)).map (fun i => sizes (i + 1)))[i]? = some (sizes (i + 1)) := by
      intro i hi
      rw [List.getElem?_map, List.getElem?_range (show i < 3 * 2 by omega)]
      rfl
    have hlen : ((List.range (3 * 2)).map (fun i => sizes (i + 1))).length = 6 := by
      simp
    constructor
    · rintro (hA | ⟨j, v, hjl, hdef, hrun⟩)
      · refine ⟨0, v0, by omega, fun i hi => absurd hi (by omega), ?_⟩
        intro i h1 h2
        cases i with
        | zero => exact h0
        | succ i' =>
          have hh := hA i' (by omega)
          rw [hget i' (by omega)] at hh
          exact Option.some.inj hh
      · rw [hlen] at hjl
        refine ⟨j + 1, v, by omega, ?_, ?_⟩
        · intro i hi
          cases i with
          | zero => exact ⟨v0, h0⟩
          | succ i' =>
            obtain ⟨w, hw⟩ := hdef i' (by omega)
            rw [hget i' (by omega)] at hw
            exact ⟨w, Option.some.inj hw⟩
        · intro i h1 h2
          cases i with
          | zero => omega
          | succ i' =>
            have hh := hrun i' (by omega) (by omega)
            rw [hget i' (by omega)] at hh
            exact Option.some.inj hh
    · rintro ⟨j, v, hj3, hdef, hrun⟩
      rcases Nat.eq_zero_or_pos j with rfl | hj0
      · left
        have hv : v = v0 := by
          have hh := hrun 0 le_rfl (by omega)
          rw [h0] at hh
          exact (Option.some.inj hh).symm
        intro i hi
        rw [hget i (by omega)]
        have hh := hrun (i + 1) (by omega) (by omega)
        rw [hh, hv]
      · right
        refine ⟨j - 1, v, by rw [hlen]; omega, ?_, ?_⟩
        · intro i hi
          obtain ⟨w, hw⟩ := hdef (i + 1) (by omega)
          rw [hget i (by omega)]
          exact ⟨w, by rw [hw]⟩
        · intro i h1 h2
          rw [hget i (by omega)]
          have hh := hrun (i + 1) (by omega) (by omega)
          rw [hh]

/-- Length of a double filter is at most the length of the single outer
filter. -/
theorem length_filter_filter_le {α : Type} (A B : α → Bool) :
    ∀ m : List α, ((m.filter B).filter A).length ≤ (m.filter A).length := by
  intro m
  induction m with
  | nil => simp
  | cons x xs ih =>
    by_cases hB : B x = true
    · by_cases hA : A x = true
      · simp only [List.filter_cons, hB, hA, if_true, List.length_cons]
        omega
      · simp only [List.filter_cons, hB, hA, if_true, Bool.false_eq_true, if_false]
        exact ih
    · have hB' : B x = false := by
        cases hh : B x
        · rfl
        · exact absurd hh hB
      by_cases hA : A x = true
      · simp only [List.filter_cons, hB', hA, if_true, Bool.false_eq_true, if_false,
          List.length_cons]
        omega
      · simp only [List.filter_cons, hB', hA, Bool.false_eq_true, if_false]
        exact ih

/-- Entries for a key do not survive a filter that removed that key. -/
theorem filterKeyDrop (p : String) :
    ∀ m : List (String × Nat),
      ((m.filter (fun e => !(e.1 == p))).filter (fun e => e.1 == p)) = [] := by
  intro m
  induction m with
  | nil => rfl
  | cons x xs ih =>
    by_cases h : (x.1 == p) = true
    · simp only [List.filter_cons, h, Bool.not_true, Bool.false_eq_true, if_false]
      exact ih
    · have hb : (x.1 == p) = false := by
        cases hh : (x.1 == p)
        · rfl
        · exact absurd hh h
      simp only [List.filter_cons, hb, Bool.not_false, if_true, Bool.false_eq_true, if_false]
      exact ih

/-- Debouncer.trigger leaves exactly one timer for the triggered path,
with deadline now + delay. -/
theorem debStep_trigger_filter (delay : Nat) (m : List (String × Nat)) (now : Nat)
    (p : String) :
    (debStep delay m (DebOp.trigger now p)).filter (fun e => e.1 == p)
      = [(p, now + delay)] := by
  show ((p, now + delay) :: m.filter (fun e => !(e.1 == p))).filter (fun e => e.1 == p)
      = [(p, now + delay)]
  rw [List.filter_cons]
  simp only [beq_self_eq_true, if_true]
  rw [filterKeyDrop p m]

/-- A firing timer removes its own entry from the map. -/
theorem debStep_fire_filter (delay : Nat) (m : List (String × Nat)) (p : String) :
    (debStep delay m (DebOp.fire p)).filter (fun e => e.1 == p) = [] := by
  show ((m.filter (fun e => !(e.1 == p))).filter (fun e => e.1 == p)) = []
  exact filterKeyDrop p m

/-- Invariant of the timer map: reachable states hold at most one entry
per path. -/
theorem debRun_at_most_one (delay : Nat) (ops : List DebOp) (p : String) :
    ((debRun delay ops).filter (fun e => e.1 == p)).length ≤ 1 := by
  have main : ∀ (ops : List DebOp) (m : List (String × Nat)),
      (m.filter (fun e => e.1 == p)).length ≤ 1 →
      ((ops.foldl (debStep delay) m).filter (fun e => e.1 == p)).length ≤ 1 := by
    intro ops
    induction ops with
    | nil => exact fun m hm => hm
    | cons op ops ih =>
      intro m hm
      rw [List.foldl_cons]
      apply ih
      cases op with
      | trigger now qq =>
        by_cases hpq : qq = p
        · subst hpq
          rw [debStep_trigger_filter]
          simp
        · show (((qq, now + delay) :: m.filter (fun e => !(e.1 == qq))).filter
              (fun e => e.1 == p)).length ≤ 1
          rw [List.filter_cons]
          have hqq : ((qq, now + delay).1 == p) = false := by
            simp [hpq]
          simp only [hqq, Bool.false_eq_true, if_false]
          exact le_trans
            (length_filter_filter_le (fun e => e.1 == p) (fun e => !(e.1 == qq)) m) hm
      | fire qq =>
        show ((m.filter (fun e => !(e.1 == qq))).filter (fun e => e.1 == p)).length ≤ 1
        exact le_trans
          (length_filter_filter_le (fun e => e.1 == p) (fun e => !(e.1 == qq)) m) hm
  exact main ops [] (by simp)

/-- With a pending deadline and every further trigger arriving before the
then-current deadline, the debouncer fires exactly once, at the last
trigger plus the delay. -/
theorem debounceSim_pending (delay : Nat) :
    ∀ (ts : List Nat) (t : Nat),
      List.Chain' (fun a b => b < a + delay) (t :: ts) →
      debounceSim delay (some (t + delay)) ts = [ts.getLastD t + delay] := by
  intro ts
  induction ts with
  | nil => exact fun t _ => rfl
  | cons t' ts' ih =>
    intro t hch
    rw [List.chain'_cons] at hch
    have hlt : ¬ (t + delay ≤ t') := by omega
    simp only [debounceSim, hlt, if_false]
    rw [List.getLastD_cons]
    exact ih t' hch.2

/-- Splitting of the worker loop at a job inside a sentinel-free segment. -/
theorem runWorker_split :
    ∀ (pre : List QItem), QItem.sentinel ∉ pre →
      ∀ (s : Nat → Option Nat) (cv : Except String String) (post : List QItem),
        runWorker (pre ++ QItem.job s cv :: post)
          = runWorker pre ++ processJob s cv :: runWorker post := by
  intro pre
  induction pre with
  | nil => exact fun _ s cv post => rfl
  | cons x xs ih =>
    intro hpre s cv post
    cases x with
    | sentinel => exact absurd (List.mem_cons_self _ _) hpre
    | job s0 c0 =>
      have hxs : QItem.sentinel ∉ xs := fun h => hpre (List.mem_cons_of_mem _ h)
      simp only [List.cons_append, runWorker]
      exact congrArg (processJob s0 c0 :: ·) (ih hxs s cv post)

/-! ## Claims -/

/-- C10: a completely empty CSV input (zero rows) converts without
failure: header mode is rejected since there is no first row, the
positional retry yields zero records, and the published artifact is the
two-character document [] in array mode and an empty zero-line file in
line-delimited mode, in both cases published atomically with the
temporary file gone. -/
theorem c10_empty_input :
    parseCSV ',' '\"' "" = []
      ∧ headerValid (parseCSV ',' '\"' "") = false
      ∧ transformRecords (parseCSV ',' '\"' "") = []
      ∧ convertContent false none ',' '\"' "" = "[]"
      ∧ convertContent true none ',' '\"' "" = ""
      ∧ convertFile false none ',' '\"' "" none none ⟨none, none⟩ = ⟨none, some "[]"⟩
      ∧ convertFile true none ',' '\"' "" none none ⟨none, none⟩ = ⟨none, some ""⟩ := by
  refine ⟨rfl, rfl, rfl, by decide, by decide, by decide, by decide⟩

/-- C2 counterexample: the array-mode output for header a,b with rows 1,2
and 3,4 is not the claimed literal without spaces, because json.dumps
uses the default separators ", " and ": " inside each object. -/
theorem c2_counterexample :
    convertContent false none ',' '\"' "a,b\n1,2\n3,4"
      ≠ "[\x7b\"a\":\"1\",\"b\":\"2\"\x7d,\x7b\"a\":\"3\",\"b\":\"4\"\x7d]" := by
  decide

/-- C2 (amended): converting header a,b with rows 1,2 and 3,4 in array
mode with no indent yields the literal JSON text with Python's default
object separators (", " between members, ": " after keys, a bare ","
between array elements); line-delimited mode yields exactly two
newline-terminated lines, one object per input row, in row order. -/
theorem c2_roundtrip_actual :
    convertContent false none ',' '\"' "a,b\n1,2\n3,4"
        = "[\x7b\"a\": \"1\", \"b\": \"2\"\x7d,\x7b\"a\": \"3\", \"b\": \"4\"\x7d]"
      ∧ convertContent true none ',' '\"' "a,b\n1,2\n3,4"
        = "\x7b\"a\": \"1\", \"b\": \"2\"\x7d\n\x7b\"a\": \"3\", \"b\": \"4\"\x7d\n"
      ∧ transformRecords (parseCSV ',' '\"' "a,b\n1,2\n3,4")
        = [[(some "a", JVal.s "1"), (some "b", JVal.s "2")],
           [(some "a", JVal.s "3"), (some "b", JVal.s "4")]] := by
  refine ⟨by decide, by decide, by decide⟩

/-- C8: with no configured overrides and failed sniffing the chosen
dialect is the comma and double quote, so the conversion output is
identical to explicitly configuring those; and an explicit override
always wins over any sniffed value for its own field. -/
theorem c8_dialect_fallback :
    (∀ (jl : Bool) (ind : Option Nat) (content : String) (sniff : Option (Char × Char)),
        convertContent jl ind (chooseDialect none none none).1
            (chooseDialect none none none).2 content
          = convertContent jl ind (chooseDialect (some ',') (some '\"') sniff).1
              (chooseDialect (some ',') (some '\"') sniff).2 content)
      ∧ (∀ (d : Char) (cfgQ : Option Char) (sniff : Option (Char × Char)),
          (chooseDialect (some d) cfgQ sniff).1 = d)
      ∧ (∀ (q : Char) (cfgD : Option Char) (sniff : Option (Char × Char)),
          (chooseDialect cfgD (some q) sniff).2 = q)
      ∧ chooseDialect none none none = (',', '\"') := by
  refine ⟨fun jl ind content sniff => rfl, fun d cfgQ sniff => rfl,
    fun q cfgD sniff => rfl, rfl⟩

/-- C6: a path is queued only if its extension lower-cases to .csv, and a
file name starting with any of the prefixes .~, ~$, . or ending with
any of the suffixes .tmp, .partial, .part, .crdownload is never queued:
enqueue leaves the worker queue unchanged for it. -/
theorem c6_filtering (q : List String) (name : String) (ex : Bool) :
    (enqueueAccepts name ex = true → strToLower (fileSuffix name) = ".csv")
      ∧ (∀ p, p ∈ TEMP_PREFIXES → strStartsWith name p = true → enqueueStep q name ex = q)
      ∧ (∀ s, s ∈ TEMP_SUFFIXES → strEndsWith name s = true → enqueueStep q name ex = q) := by
  refine ⟨?_, ?_, ?_⟩
  · intro h
    simp only [enqueueAccepts, Bool.not_eq_true', Bool.or_eq_false_iff,
      Bool.not_eq_false'] at h
    have hcsv : is_csv name = true := h.1.1
    simpa [is_csv, CSV_EXTENSIONS] using hcsv
  · intro p hp hs
    have htemp : is_probably_temp name = true := by
      simp only [is_probably_temp, Bool.or_eq_true, List.any_eq_true]
      exact Or.inl ⟨p, hp, hs⟩
    simp [enqueueStep, enqueueAccepts, htemp]
  · intro s hs hend
    have htemp : is_probably_temp name = true := by
      simp only [is_probably_temp, Bool.or_eq_true, List.any_eq_true]
      exact Or.inr ⟨s, hs, hend⟩
    simp [enqueueStep, enqueueAccepts, htemp]

/-- C6 witness: a file carrying the Office lock prefix is dropped. -/
theorem c6_witness : enqueueStep [] "~$report.csv" true = [] :=
  (c6_filtering [] "~$report.csv" true).2.1 "~$" (by decide) (by decide)

/-- C7: the default output name replaces the input suffix by .json in
array mode and .jsonl in line mode; with overwrite disabled and the
base name taken, the numbered candidates are probed sequentially
starting at 1 and the first free one is chosen; converting the same
source twice without deleting the first output yields two distinct
names, the second carrying the suffix _1. -/
theorem c7_output_naming :
    (∀ csvName, outName false csvName = fileStem csvName ++ ".json"
        ∧ outName true csvName = fileStem csvName ++ ".jsonl")
      ∧ (∀ (base : String) (exs : String → Bool) (j fuel : Nat),
          exs base = true → 1 ≤ j → j ≤ fuel →
          exs (candidateName base j) = false →
          (∀ i, 1 ≤ i → i < j → exs (candidateName base i) = true) →
          uniqueOutPath false exs base fuel = some (candidateName base j))
      ∧ (∀ (jl : Bool) (csvName : String) (exs : String → Bool) (fuel : Nat),
          1 ≤ fuel →
          exs (outName jl csvName) = false →
          exs (candidateName (outName jl csvName) 1) = false →
          uniqueOutPath false exs (outName jl csvName) fuel = some (outName jl csvName)
            ∧ uniqueOutPath false (fun n => n == outName jl csvName || exs n)
                (outName jl csvName) fuel
                = some (candidateName (outName jl csvName) 1)
            ∧ candidateName (outName jl csvName) 1 ≠ outName jl csvName) := by
  refine ⟨fun csvName => ⟨rfl, rfl⟩, ?_, ?_⟩
  · intro base exs j fuel h1 h2 h3 h4 h5
    simp only [uniqueOutPath, h1, Bool.not_true, Bool.or_self, Bool.false_eq_true, if_false]
    exact probeFrom_eq_of exs base fuel 1 j h2 (by omega) h4 h5
  · intro jl csvName exs fuel hf h1 h2
    refine ⟨?_, ?_, candidateName_one_ne _⟩
    · simp [uniqueOutPath, h1]
    · have hbase : ((fun n => n == outName jl csvName || exs n) (outName jl csvName)) = true := by
        simp
      have hcand : ((fun n => n == outName jl csvName || exs n)
          (candidateName (outName jl csvName) 1)) = false := by
        simp only [Bool.or_eq_false_iff]
        exact ⟨by simp [candidateName_one_ne], h2⟩
      simp only [uniqueOutPath, hbase, Bool.not_true, Bool.or_self, Bool.false_eq_true,
        if_false]
      exact probeFrom_eq_of _ _ fuel 1 1 le_rfl (by omega) hcand
        (fun i hi1 hi2 => absurd hi2 (by omega))

/-- C7 witness: with data.json already present and overwrite off, the
second conversion of data.csv resolves to data_1.json. -/
theorem c7_witness :
    uniqueOutPath false (fun n => n == "data.json") "data.json" 3
        = some (candidateName "data.json" 1)
      ∧ candidateName "data.json" 1 = "data_1.json" :=
  ⟨c7_output_naming.2.1 "data.json" (fun n => n == "data.json") 1 3 (by decide)
      le_rfl (by decide) (by decide) (fun i hi1 hi2 => absurd hi2 (by omega)),
    by decide⟩

/-- C4: _wait_stable at its worker parameters (3 checks, 6 loop samples)
succeeds exactly when some block of four consecutive observations
(starting at index at most 3) returns one identical size with the file
present at every earlier observation, i.e. when three consecutive
samples with unchanged size occur within the attempt budget; a changed
sample resets the consecutive-equal counter to zero and replaces the
reference size; a missing file fails immediately regardless of later
samples; and a file whose size differs on every poll is reported
unstable and its job is skipped with a warning, not an error, so no
output is produced for it. -/
theorem c4_stability_detection (sizes : Nat → Option Nat) (conv : Except String String) :
    (wait_stable 3 sizes = true ↔
        ∃ j v, j ≤ 3 ∧ (∀ i, i < j → ∃ w, sizes i = some w) ∧
          (∀ i, j ≤ i → i ≤ j + 3 → sizes i = some v))
      ∧ (∀ (c last stable s : Nat) (rest : List (Option Nat)), s ≠ last →
          waitLoop c last stable (some s :: rest) = waitLoop c s 0 rest)
      ∧ (∀ (c last stable : Nat) (rest : List (Option Nat)),
          waitLoop c last stable (none :: rest) = false)
      ∧ (sizes 0 = none → wait_stable 3 sizes = false)
      ∧ ((∀ i, i < 6 → sizes i ≠ sizes (i + 1)) →
          wait_stable 3 sizes = false ∧ processJob sizes conv = Outcome.skippedUnstable) := by
  refine ⟨wait_stable_three_iff sizes, ?_, ?_, wait_stable_eq_none, ?_⟩
  · intro c last stable s rest hne
    simp [waitLoop, hne]
  · intro c last stable rest
    simp [waitLoop]
  · intro hch
    have hf : wait_stable 3 sizes = false := by
      cases hb : wait_stable 3 sizes with
      | false => rfl
      | true =>
        obtain ⟨j, v, hj, hdef, hrun⟩ := (wait_stable_three_iff sizes).mp hb
        have e1 := hrun j le_rfl (by omega)
        have e2 := hrun (j + 1) (by omega) (by omega)
        exact absurd (e1.trans e2.symm) (hch j (by omega))
    exact ⟨hf, by simp [processJob, hf]⟩

/-- C4 witness: a file growing on every poll never stabilizes and its job
is skipped. -/
theorem c4_witness :
    wait_stable 3 (fun i => some (10 + i)) = false
      ∧ processJob (fun i => some (10 + i)) (Except.ok "out") = Outcome.skippedUnstable :=
  (c4_stability_detection (fun i => some (10 + i)) (Except.ok "out")).2.2.2.2
    (fun i _ => by intro h; simp only [Option.some.injEq] at h; omega)

/-- C5: every reachable debouncer timer map holds at most one pending
timer per path; a new notification for a path cancels and replaces its
pending timer with deadline now + delay; a firing timer removes its own
entry before the action runs; and a burst of triggers each arriving
before the pending deadline produces exactly one firing, at the last
trigger time plus the delay, hence exactly one enqueued worker job when
the path is eligible. -/
theorem c5_debounce (delay : Nat) :
    (∀ (ops : List DebOp) (p : String),
        ((debRun delay ops).filter (fun e => e.1 == p)).length ≤ 1)
      ∧ (∀ (m : List (String × Nat)) (now : Nat) (p : String),
          (debStep delay m (DebOp.trigger now p)).filter (fun e => e.1 == p)
            = [(p, now + delay)])
      ∧ (∀ (m : List (String × Nat)) (p : String),
          (debStep delay m (DebOp.fire p)).filter (fun e => e.1 == p) = [])
      ∧ (∀ (t0 : Nat) (ts : List Nat),
          List.Chain' (fun a b => b < a + delay) (t0 :: ts) →
          debounceSim delay none (t0 :: ts) = [ts.getLastD t0 + delay]
            ∧ ∀ (q : List String) (name : String) (ex : Bool),
                enqueueAccepts name ex = true →
                (debounceSim delay none (t0 :: ts)).foldl
                    (fun acc _ => enqueueStep acc name ex) q
                  = q ++ [name]) := by
  refine ⟨fun ops p => debRun_at_most_one delay ops p,
    fun m now p => debStep_trigger_filter delay m now p,
    fun m p => debStep_fire_filter delay m p, ?_⟩
  intro t0 ts hch
  have hfire : debounceSim delay none (t0 :: ts) = [ts.getLastD t0 + delay] := by
    show debounceSim delay (some (t0 + delay)) ts = _
    exact debounceSim_pending delay ts t0 hch
  refine ⟨hfire, ?_⟩
  intro q name ex hacc
  rw [hfire]
  simp [enqueueStep, hacc]

/-- C5 witness: three rapid triggers at times 0, 2, 4 under delay 5 fire
once at time 9 and enqueue exactly one job. -/
theorem c5_witness :
    debounceSim 5 none [0, 2, 4] = [9]
      ∧ (debounceSim 5 none [0, 2, 4]).foldl
          (fun acc _ => enqueueStep acc "data.csv" true) [] = ["data.csv"] := by
  have h := (c5_debounce 5).2.2.2 0 [2, 4]
    (List.chain'_cons.mpr ⟨by omega, List.chain'_cons.mpr ⟨by omega, List.chain'_singleton _⟩⟩)
  exact ⟨h.1.trans (by decide), (h.2 [] "data.csv" true (by decide)).trans (by decide)⟩

/-- C9: an exception from the conversion of a dequeued job is caught and
logged (outcome failedLogged), never produces an output, and the worker
loop continues with the remaining queue exactly as it would have
without the failing job in front. -/
theorem c9_worker_isolation (pre post : List QItem) (sizes : Nat → Option Nat) (e : String)
    (hpre : QItem.sentinel ∉ pre) :
    runWorker (pre ++ QItem.job sizes (Except.error e) :: post)
        = runWorker pre ++ processJob sizes (Except.error e) :: runWorker post
      ∧ ∀ doc, processJob sizes (Except.error e) ≠ Outcome.wrote doc := by
  refine ⟨runWorker_split pre hpre sizes (Except.error e) post, ?_⟩
  intro doc
  by_cases h : wait_stable 3 sizes = true
  · simp [processJob, h]
  · simp [processJob, h]

/-- C9 witness: a failing job between two successful ones is logged and
does not stop the worker from processing the rest of the queue. -/
theorem c9_witness :
    runWorker ([QItem.job (fun _ => some 7) (Except.ok "A")]
        ++ QItem.job (fun _ => some 7) (Except.error "boom")
          :: [QItem.job (fun _ => some 7) (Except.ok "B")])
      = runWorker [QItem.job (fun _ => some 7) (Except.ok "A")]
        ++ processJob (fun _ => some 7) (Except.error "boom")
          :: runWorker [QItem.job (fun _ => some 7) (Except.ok "B")] :=
  (c9_worker_isolation [QItem.job (fun _ => some 7) (Except.ok "A")]
    [QItem.job (fun _ => some 7) (Except.ok "B")] (fun _ => some 7) "boom"
    (by intro h; simp at h)).1

/-- C1 counterexample: with the final path already holding a file, a
failure injected at step 1 of header-mode JSON serialization does not
leave the final path unchanged and does not leave it empty — the
exception is caught by the header-fallback handler, the temporary file
is rewritten in positional mode and published over the old file. -/
theorem c1_counterexample :
    (convertFile false none ',' '\"' "a,b\n1,2" (some 1) none
        ⟨none, some "OLD"⟩).final ≠ some "OLD"
      ∧ (convertFile false none ',' '\"' "a,b\n1,2" (some 1) none
          ⟨none, some "OLD"⟩).final ≠ none := by
  exact ⟨by decide, by decide⟩

/-- C1 (amended): the final output path always holds either its previous
content or one of the two complete documents (header mode or positional
mode) — never a truncated one, since the full document is written to
the sibling temporary file and a single atomic rename publishes it only
after a complete write.  When the failure prevents every rename (both
serialization attempts fail, or the only attempted one fails), the
final path is unchanged; but a failure injected during header-mode
serialization is swallowed by the positional fallback, which on success
publishes a complete positional document. -/
theorem c1_atomic_publish (jl : Bool) (ind : Option Nat) (d q : Char) (content : String)
    (f1 f2 : Option Nat) (fs : FsOut) :
    ((convertFile jl ind d q content f1 f2 fs).final = fs.final
        ∨ (convertFile jl ind d q content f1 f2 fs).final
            = some (headerDoc jl ind d q content)
        ∨ (convertFile jl ind d q content f1 f2 fs).final
            = some (positionalDoc jl ind d q content))
      ∧ (headerValid (parseCSV d q content) = true → f1 = none →
          convertFile jl ind d q content f1 f2 fs
            = ⟨none, some (headerDoc jl ind d q content)⟩)
      ∧ (headerValid (parseCSV d q content) = false → f2 = none →
          convertFile jl ind d q content f1 f2 fs
            = ⟨none, some (positionalDoc jl ind d q content)⟩)
      ∧ (∀ k1 k2, f1 = some k1 → f2 = some k2 →
          (convertFile jl ind d q content f1 f2 fs).final = fs.final)
      ∧ (headerValid (parseCSV d q content) = false → ∀ k2, f2 = some k2 →
          (convertFile jl ind d q content f1 f2 fs).final = fs.final)
      ∧ (headerValid (parseCSV d q content) = true → ∀ k1, f1 = some k1 → f2 = none →
          (convertFile jl ind d q content f1 f2 fs).final
            = some (positionalDoc jl ind d q content)) := by
  refine ⟨?_, ?_, ?_, ?_, ?_, ?_⟩
  · cases hv : headerValid (parseCSV d q content) with
    | true =>
      cases f1 with
      | none =>
        right; left
        simp [convertFile, convertFileWrite, runWriteJson, hv, headerDoc, renderDoc]
      | some k1 =>
        cases f2 with
        | none =>
          right; right
          simp [convertFile, convertFileWrite, runWriteJson, hv, positionalDoc, renderDoc]
        | some k2 =>
          left
          simp [convertFile, convertFileWrite, runWriteJson, hv]
    | false =>
      cases f2 with
      | none =>
        right; right
        simp [convertFile, convertFileWrite, runWriteJson, hv, positionalDoc, renderDoc]
      | some k2 =>
        left
        simp [convertFile, convertFileWrite, runWriteJson, hv]
  · intro hv hf1
    subst hf1
    simp [convertFile, convertFileWrite, runWriteJson, hv, headerDoc, renderDoc]
  · intro hv hf2
    subst hf2
    simp [convertFile, convertFileWrite, runWriteJson, hv, positionalDoc, renderDoc]
  · intro k1 k2 hf1 hf2
    subst hf1
    subst hf2
    cases hv : headerValid (parseCSV d q content) with
    | true => simp [convertFile, convertFileWrite, runWriteJson, hv]
    | false => simp [convertFile, convertFileWrite, runWriteJson, hv]
  · intro hv k2 hf2
    subst hf2
    simp [convertFile, convertFileWrite, runWriteJson, hv]
  · intro hv k1 hf1 hf2
    subst hf1
    subst hf2
    simp [convertFile, convertFileWrite, runWriteJson, hv, positionalDoc, renderDoc]

/-- C1 witness: a failure-free conversion publishes the complete header
document atomically. -/
theorem c1_witness :
    convertFile false none ',' '\"' "a,b\n1,2" none none ⟨none, none⟩
      = ⟨none, some (headerDoc false none ',' '\"' "a,b\n1,2")⟩ :=
  (c1_atomic_publish false none ',' '\"' "a,b\n1,2" none none ⟨none, none⟩).2.1
    (by decide) rfl

/-- C3: when the first parsed row has a cell that is empty after
stripping, or is the empty row, or there is no first row at all, header
validation fails and the transformer performs a full positional retry
over every row from the start of the file — including the first row —
producing records keyed col1, col2, ... in 1-based column order. -/
theorem c3_headerless_fallback (d q : Char) (content : String)
    (hbad : (parseCSV d q content).head? = none
        ∨ ∃ h0, (parseCSV d q content).head? = some h0
            ∧ (h0 = [] ∨ ∃ c ∈ h0, pyStrip c = "")) :
    headerValid (parseCSV d q content) = false
      ∧ transformRecords (parseCSV d q content)
          = (parseCSV d q content).map positionalRecord
      ∧ ∀ row : List String,
          (positionalRecord row).map Prod.fst
            = (List.range row.length).map (fun i => some ("col" ++ Nat.repr (i + 1))) := by
  have hfalse : headerValid (parseCSV d q content) = false := by
    cases hrows : parseCSV d q content with
    | nil => rfl
    | cons h0 rest =>
      rw [hrows] at hbad
      simp only [List.head?_cons] at hbad
      rcases hbad with hcon | ⟨h1, hh1, hcase⟩
      · cases hcon
      · obtain rfl : h0 = h1 := Option.some.inj hh1
        rcases hcase with rfl | ⟨c, hc, hct⟩
        · rfl
        · have hall : h0.all (fun x => !(pyStrip x == "")) = false := by
            rw [Bool.eq_false_iff]
            intro hall
            rw [List.all_eq_true] at hall
            have hx := hall c hc
            rw [hct] at hx
            simp at hx
          simp [headerValid, hall]
  refine ⟨hfalse, ?_, ?_⟩
  · simp [transformRecords, hfalse, positionalRecords]
  · intro row
    rw [positionalRecord, List.map_map, ← List.enum_map_fst row, List.map_map]
    rfl

/-- C3 witness: the spec example with an empty first header cell is
parsed positionally, every row keyed col1, col2. -/
theorem c3_witness :
    transformRecords (parseCSV ',' '\"' ",b\n1,2")
        = (parseCSV ',' '\"' ",b\n1,2").map positionalRecord
      ∧ (parseCSV ',' '\"' ",b\n1,2").map positionalRecord
          = [[(some "col1", JVal.s ""), (some "col2", JVal.s "b")],
             [(some "col1", JVal.s "1"), (some "col2", JVal.s "2")]] :=
  ⟨(c3_headerless_fallback ',' '\"' ",b\n1,2"
      (Or.inr ⟨["", "b"], by decide, Or.inr ⟨"", by decide, by decide⟩⟩)).2.1,
    by decide⟩

end CsvWatcher
